import Mathlib

/-!
Verification of the argument-binding engine of `starlark-rust`
(`src/starlark/src/values/function.rs`): the signature model, the
bound-argument model, the binding algorithm `parse_signature`, the error
taxonomy with its rendered messages, and the two callable variants
(native functions and methods wrapped with a receiver).

The general dynamic value model is an external collaborator of that file;
only the operations the binding engine uses (iteration, key indexing,
type tags, string/repr conversion, hashability of dictionary keys) are
modelled here, on a small inductive `Value` covering the ground types the
engine touches.
-/

namespace Starlark

/-- Modelled collaborator: the dynamic value model. The binding engine only
needs ground values, sequences and string-keyed mappings, together with
iteration, indexing, type tags and conversion operations. -/
inductive Value where
  | none : Value
  | bool : Bool → Value
  | int : Int → Value
  | str : String → Value
  | list : List Value → Value
  | dict : List (String × Value) → Value


/-- Type tag of a value, as returned by `get_type` in the value model. -/
def Value.get_type : Value → String
  | .none => "NoneType"
  | .bool _ => "bool"
  | .int _ => "int"
  | .str _ => "string"
  | .list _ => "list"
  | .dict _ => "dict"

/-- `to_str` of the value model, as used by the binding engine to turn a
string-typed key value into a host string. -/
def Value.to_str : Value → String
  | .str s => s
  | .none => "None"
  | .bool b => cond b "True" "False"
  | .int i => toString i
  | _ => ""

mutual

/-- `to_repr` of the value model (quoted strings, bracketed sequences),
used when rendering default values inside a signature. -/
def Value.to_repr : Value → String
  | .none => "None"
  | .bool b => cond b "True" "False"
  | .int i => toString i
  | .str s => "\x22" ++ s ++ "\x22"
  | .list l => "[" ++ reprElems l ++ "]"
  | .dict m => "\x7b" ++ reprPairs m ++ "\x7d"

/-- Comma-joined reprs of the elements of a sequence value. -/
def reprElems : List Value → String
  | [] => ""
  | [x] => x.to_repr
  | x :: xs => x.to_repr ++ ", " ++ reprElems xs

/-- Comma-joined `"key": value` reprs of the entries of a mapping value. -/
def reprPairs : List (String × Value) → String
  | [] => ""
  | [(k, v)] => "\x22" ++ k ++ "\x22: " ++ v.to_repr
  | (k, v) :: xs => "\x22" ++ k ++ "\x22: " ++ v.to_repr ++ ", " ++ reprPairs xs

end

/-- Iteration capability of the value model (`Value::iter`): sequences
iterate over their elements, mappings over their keys; other values are
not iterable. -/
def Value.iter : Value → Except Unit (List Value)
  | .list l => .ok l
  | .dict m => .ok (m.map (fun kv => Value.str kv.1))
  | _ => .error ()

/-- Key-indexing capability of the value model (`Value::at`): mappings are
indexed by string key; everything else fails. -/
def Value.at : Value → Value → Except Unit Value
  | .dict m, .str k =>
    match m.lookup k with
    | some v => .ok v
    | Option.none => .error ()
  | _, _ => .error ()

/-- Hashability in the value model: sequences and mappings are unhashable,
ground values are hashable. Dictionary construction requires hashable keys. -/
def Value.hashable : Value → Bool
  | .list _ => false
  | .dict _ => false
  | _ => true

/-- `TryInto<Value>` for a string-keyed ordered map: building a dictionary
value fails when some key is unhashable (mirroring `Dictionary` insertion). -/
def dictTryFrom (m : List (String × Value)) : Option Value :=
  if m.all (fun kv => (Value.str kv.1).hashable) then some (Value.dict m) else Option.none

/-- `FunctionParameter` from function.rs: one declared slot of a signature. -/
inductive FunctionParameter where
  | Normal : String → FunctionParameter
  | Optional : String → FunctionParameter
  | WithDefaultValue : String → Value → FunctionParameter
  | ArgsArray : String → FunctionParameter
  | KWArgsDict : String → FunctionParameter


/-- `FunctionType` from function.rs: display identity of a callable. -/
inductive FunctionType where
  | Native : String → FunctionType
  | Def : String → String → FunctionType


/-- `FunctionArg` from function.rs: one binding result. -/
inductive FunctionArg where
  | Normal : Value → FunctionArg
  | Optional : Option Value → FunctionArg
  | ArgsArray : List Value → FunctionArg
  | KWArgsDict : List (String × Value) → FunctionArg


/-- `FunctionError` from function.rs. -/
inductive FunctionError where
  | NotEnoughParameter : String → FunctionType → List FunctionParameter → FunctionError
  | ArgsValueIsNotString : FunctionError
  | ArgsArrayIsNotIterable : FunctionError
  | KWArgsDictIsNotMappable : FunctionError
  | ExtraParameter : FunctionError


/-- `LinkedHashMap::insert`: replace the value in place when the key is
already present (its position is kept), otherwise append at the back. -/
def lhmInsert (m : List (String × Value)) (k : String) (v : Value) :
    List (String × Value) :=
  match m with
  | [] => [(k, v)]
  | (k1, v1) :: rest =>
    if k1 = k then (k1, v) :: rest else (k1, v1) :: lhmInsert rest k v

/-- `LinkedHashMap::remove`: the removed value (if the key was present)
paired with the remaining map. -/
def lhmRemove (m : List (String × Value)) (k : String) :
    Option Value × List (String × Value) :=
  match m with
  | [] => (Option.none, [])
  | (k1, v1) :: rest =>
    if k1 = k then (some v1, rest)
    else
      let r := lhmRemove rest k
      (r.1, (k1, v1) :: r.2)

/-- Lookup in the ordered map (first entry with the key). -/
def lhmLookup (m : List (String × Value)) (k : String) : Option Value :=
  match m with
  | [] => Option.none
  | (k1, v1) :: rest => if k1 = k then some v1 else lhmLookup rest k

/-- `FunctionType::to_str` from function.rs. -/
def FunctionType.to_str : FunctionType → String
  | .Native name => name
  | .Def name _ => name

/-- `FunctionType::to_repr` from function.rs. -/
def FunctionType.to_repr : FunctionType → String
  | .Native name => "<native function " ++ name ++ ">"
  | .Def name module => "<function " ++ name ++ " from " ++ module ++ ">"

/-- The per-parameter rendering used by `repr` in function.rs. -/
def paramRepr : FunctionParameter → String
  | .Normal name => name
  | .Optional name => "?" ++ name
  | .WithDefaultValue name value => name ++ " = " ++ value.to_repr
  | .ArgsArray name => "*" ++ name
  | .KWArgsDict name => "**" ++ name

/-- `repr(function_type, signature)` from function.rs: the joined parameter
reprs wrapped in parentheses after the function type's repr. -/
def repr (function_type : FunctionType) (signature : List FunctionParameter) :
    String :=
  function_type.to_repr ++ "(" ++
    String.intercalate ", " (signature.map paramRepr) ++ ")"

/-- `RuntimeError` of the error collaborator: code, label and message. -/
structure RuntimeError where
  code : String
  label : String
  message : String

/-- `trim_start_matches('$')`: drop every leading dollar character. -/
def trimStartDollars (s : String) : String :=
  String.mk (s.toList.dropWhile (fun c => c = '$'))

/-- `Into<RuntimeError> for FunctionError` from function.rs. -/
def FunctionError.intoRuntime : FunctionError → RuntimeError
  | .NotEnoughParameter missing function_type signature =>
    { code := "CF00"
      label := "Not enough parameters in function call"
      message := "Missing parameter " ++ trimStartDollars missing ++
        " for call to " ++ repr function_type signature }
  | .ArgsValueIsNotString =>
    { code := "CF01"
      label := "not an identifier for *args"
      message := "The argument provided for *args is not an identifier" }
  | .ArgsArrayIsNotIterable =>
    { code := "CF02"
      label := "*args is not iterable"
      message := "The argument provided for *args is not iterable" }
  | .KWArgsDictIsNotMappable =>
    { code := "CF03"
      label := "**kwargs is not mappable"
      message := "The argument provided for **kwargs is not mappable" }
  | .ExtraParameter =>
    { code := "CF05"
      label := "Extraneous parameter in function call"
      message := "Extraneous parameter passed to function call" }

/-- Step 1 of `parse_signature`: extend the positional vector with the
iterated elements of the `*args` spread value, when present. -/
def expandArgs (positional : List Value) (args : Option Value) :
    Except FunctionError (List Value) :=
  match args with
  | Option.none => .ok positional
  | some x =>
    match x.iter with
    | .ok y => .ok (positional ++ y)
    | .error _ => .error .ArgsArrayIsNotIterable

/-- The per-key loop of step 2 of `parse_signature`: each iterated key of
the `**kwargs` spread value must be string-typed, its value is looked up by
indexing and inserted (insert-or-overwrite) into the working mapping. -/
def insertKwargs (x : Value) (keys : List Value)
    (acc : List (String × Value)) : Except FunctionError (List (String × Value)) :=
  match keys with
  | [] => .ok acc
  | n :: rest =>
    if n.get_type = "string" then
      match x.at n with
      | .ok v => insertKwargs x rest (lhmInsert acc n.to_str v)
      | .error _ => .error .KWArgsDictIsNotMappable
    else .error .ArgsValueIsNotString

/-- Step 2 of `parse_signature`: build the working keyword mapping from the
explicit named mapping and the `**kwargs` spread value, when present. -/
def expandKwargs (named : List (String × Value)) (kwargs : Option Value) :
    Except FunctionError (List (String × Value)) :=
  match kwargs with
  | Option.none => .ok named
  | some x =>
    match x.iter with
    | .ok y => insertKwargs x y named
    | .error _ => .error .KWArgsDictIsNotMappable

/-- The signature walk of `parse_signature` (the `for parameter in
signature` loop): `signature` is the full signature kept for error
reporting, `params` the remaining parameters, `pos` the not-yet-consumed
suffix of the expanded positional vector (`args_iter`), `kw` the working
keyword mapping. -/
def psLoop (signature : List FunctionParameter) (function_type : FunctionType)
    (params : List FunctionParameter) (pos : List Value)
    (kw : List (String × Value)) : Except FunctionError (List FunctionArg) :=
  match params with
  | [] =>
    if pos.isEmpty && kw.isEmpty then .ok []
    else .error .ExtraParameter
  | .Normal name :: rest =>
    match pos with
    | x :: ps =>
      match psLoop signature function_type rest ps kw with
      | .ok t => .ok (.Normal x :: t)
      | .error e => .error e
    | [] =>
      match lhmRemove kw name with
      | (some r, kw1) =>
        match psLoop signature function_type rest [] kw1 with
        | .ok t => .ok (.Normal r :: t)
        | .error e => .error e
      | (Option.none, _) =>
        .error (.NotEnoughParameter name function_type signature)
  | .Optional name :: rest =>
    match pos with
    | x :: ps =>
      match psLoop signature function_type rest ps kw with
      | .ok t => .ok (.Optional (some x) :: t)
      | .error e => .error e
    | [] =>
      match lhmRemove kw name with
      | (some r, kw1) =>
        match psLoop signature function_type rest [] kw1 with
        | .ok t => .ok (.Optional (some r) :: t)
        | .error e => .error e
      | (Option.none, _) =>
        match psLoop signature function_type rest [] kw with
        | .ok t => .ok (.Optional Option.none :: t)
        | .error e => .error e
  | .WithDefaultValue name value :: rest =>
    match pos with
    | x :: ps =>
      match psLoop signature function_type rest ps kw with
      | .ok t => .ok (.Normal x :: t)
      | .error e => .error e
    | [] =>
      match lhmRemove kw name with
      | (some r, kw1) =>
        match psLoop signature function_type rest [] kw1 with
        | .ok t => .ok (.Normal r :: t)
        | .error e => .error e
      | (Option.none, _) =>
        match psLoop signature function_type rest [] kw with
        | .ok t => .ok (.Normal value :: t)
        | .error e => .error e
  | .ArgsArray _ :: rest =>
    match psLoop signature function_type rest [] kw with
    | .ok t => .ok (.ArgsArray pos :: t)
    | .error e => .error e
  | .KWArgsDict _ :: rest =>
    match psLoop signature function_type rest pos [] with
    | .ok t => .ok (.KWArgsDict kw :: t)
    | .error e => .error e

/-- `parse_signature` from function.rs: expand the positional and keyword
inputs, then walk the signature in declaration order. -/
def parse_signature (signature : List FunctionParameter)
    (function_type : FunctionType) (positional : List Value)
    (named : List (String × Value)) (args kwargs : Option Value) :
    Except FunctionError (List FunctionArg) :=
  match expandArgs positional args with
  | .error e => .error e
  | .ok av =>
    match expandKwargs named kwargs with
    | .error e => .error e
    | .ok kwargs_dict => psLoop signature function_type signature av kwargs_dict

/-- `From<FunctionArg> for Value` from function.rs, with the `unwrap` on
the dictionary conversion modelled as `Option` (a `none` result stands for
the panic that the source comments argue cannot happen, keys being
hashable strings). -/
def Value.fromFunctionArg : FunctionArg → Option Value
  | .Normal v => some v
  | .ArgsArray v => some (Value.list v)
  | .Optional (some v) => some v
  | .Optional Option.none => some Value.none
  | .KWArgsDict v => dictTryFrom v

/-- `FunctionId` from the value model: the identity token used for
function equality and hashing. `data_ptr` pointer identity is modelled as
the identified value itself. -/
structure FunctionId where
  ptr : Value

/-- `WrappedMethod` from function.rs: a method value paired with the
receiver it was bound to. -/
structure WrappedMethod where
  method : Value
  self_obj : Value

/-- `WrappedMethod::function_id`: the identity is the wrapped method's,
the receiver plays no part. -/
def WrappedMethod.function_id (m : WrappedMethod) : Option FunctionId :=
  some ⟨m.method⟩

/-- The call that `WrappedMethod::call` delegates to its wrapped method:
the target value and the argument bundle passed on. -/
structure DelegatedCall where
  target : Value
  positional : List Value
  named : List (String × Value)
  args : Option Value
  kwargs : Option Value

/-- `WrappedMethod::call` from function.rs: insert `self` at the beginning
of the positional vector, forward everything else unchanged to the wrapped
method. -/
def WrappedMethod.call (m : WrappedMethod) (positional : List Value)
    (named : List (String × Value)) (args kwargs : Option Value) :
    DelegatedCall :=
  { target := m.method
    positional := [m.self_obj] ++ positional
    named := named
    args := args
    kwargs := kwargs }

/-- Variant alignment between a declared parameter and a bound argument:
Normal and WithDefaultValue bind to Normal, Optional to Optional,
ArgsArray to ArgsArray, KWArgsDict to KWArgsDict. -/
def alignsWith : FunctionParameter → FunctionArg → Bool
  | .Normal _, .Normal _ => true
  | .WithDefaultValue _ _, .Normal _ => true
  | .Optional _, .Optional _ => true
  | .ArgsArray _, .ArgsArray _ => true
  | .KWArgsDict _, .KWArgsDict _ => true
  | _, _ => false

/-- Entry-by-entry variant alignment of a bound-argument sequence with a
signature, in declaration order (false when lengths differ). -/
def aligned : List FunctionParameter → List FunctionArg → Bool
  | [], [] => true
  | p :: ps, a :: bs => alignsWith p a && aligned ps bs
  | _, _ => false

/-- Whether a parameter can consume the keyword entry with the given name
during the walk: a same-named Normal/Optional/WithDefaultValue parameter
removes it, and a KWArgsDict parameter captures the whole mapping. -/
def consultsKey (name : String) : FunctionParameter → Bool
  | .Normal n => n = name
  | .Optional n => n = name
  | .WithDefaultValue n _ => n = name
  | .ArgsArray _ => false
  | .KWArgsDict _ => true

/-- The parameter rendering as the specification describes it: the bare
name, `?name` for an Optional parameter, `name = default` for a Defaulted
one, `*name` for SpreadPositional and `**name` for SpreadKeyword. -/
def specParamRender : FunctionParameter → String
  | .Normal name => name
  | .Optional name => "?" ++ name
  | .WithDefaultValue name d => name ++ " = " ++ d.to_repr
  | .ArgsArray name => "*" ++ name
  | .KWArgsDict name => "**" ++ name

theorem strAppend_assoc (a b c : String) : (a ++ b) ++ c = a ++ (b ++ c) := by
  rcases a with ⟨la⟩; rcases b with ⟨lb⟩; rcases c with ⟨lc⟩
  show String.mk (la ++ lb ++ lc) = String.mk (la ++ (lb ++ lc))
  rw [List.append_assoc]

theorem paramRepr_eq_specParamRender : paramRepr = specParamRender := by
  funext p
  cases p <;> rfl

theorem lhmRemove_fst (m : List (String × Value)) (k : String) :
    (lhmRemove m k).1 = lhmLookup m k := by
  induction m with
  | nil => rfl
  | cons kv rest ih =>
    rcases kv with ⟨k1, v1⟩
    by_cases h : k1 = k <;> simp [lhmRemove, lhmLookup, h, ih]

theorem lhmRemove_lookup_ne (m : List (String × Value)) (k1 k2 : String)
    (hne : k1 ≠ k2) : lhmLookup (lhmRemove m k1).2 k2 = lhmLookup m k2 := by
  induction m with
  | nil => rfl
  | cons kv rest ih =>
    rcases kv with ⟨ka, va⟩
    by_cases h : ka = k1
    · subst h
      simp [lhmRemove, lhmLookup, hne]
    · by_cases h2 : ka = k2 <;> simp [lhmRemove, lhmLookup, h, h2, ih, Ne.symm hne]

theorem lhmInsert_lookup_self (m : List (String × Value)) (k : String)
    (v : Value) : lhmLookup (lhmInsert m k v) k = some v := by
  induction m with
  | nil => simp [lhmInsert, lhmLookup]
  | cons kv rest ih =>
    rcases kv with ⟨ka, va⟩
    by_cases h : ka = k <;> simp [lhmInsert, lhmLookup, h, ih]

theorem lhmLookup_ne_nil (m : List (String × Value)) (k : String) (v : Value)
    (h : lhmLookup m k = some v) : m ≠ [] := by
  intro hm
  subst hm
  simp [lhmLookup] at h

theorem psLoop_ok_aligned (sig : List FunctionParameter) (ft : FunctionType)
    (params : List FunctionParameter) (pos : List Value)
    (kw : List (String × Value)) :
    ∀ v, psLoop sig ft params pos kw = Except.ok v →
      v.length = params.length ∧ aligned params v = true := by
  induction params, pos, kw using psLoop.induct sig ft <;>
    intro v h <;>
    simp only [psLoop, *] at h <;>
    first
      | (cases h; simp_all [aligned, alignsWith])
      | simp_all [aligned, alignsWith]

theorem psLoop_normal_missing (sig : List FunctionParameter)
    (ft : FunctionType) (name : String) (rest : List FunctionParameter)
    (kw : List (String × Value)) (h : lhmLookup kw name = Option.none) :
    psLoop sig ft (.Normal name :: rest) [] kw =
      .error (.NotEnoughParameter name ft sig) := by
  have hfst : (lhmRemove kw name).1 = Option.none := by
    rw [lhmRemove_fst, h]
  rcases hrem : lhmRemove kw name with ⟨f, s⟩
  rw [hrem] at hfst
  subst hfst
  simp only [psLoop, hrem]

theorem psLoop_key_blocks (sig : List FunctionParameter) (ft : FunctionType) :
    ∀ (rest : List FunctionParameter) (pos : List Value)
      (kw : List (String × Value)) (name : String) (v0 : Value),
      lhmLookup kw name = some v0 →
      (rest.all fun p => !consultsKey name p) = true →
      ∀ r, psLoop sig ft rest pos kw ≠ Except.ok r := by
  intro rest
  induction rest with
  | nil =>
    intro pos kw name v0 hlook hall r h
    simp only [psLoop] at h
    split at h
    · rename_i hc
      have hkw : kw = [] := by
        cases kw with
        | nil => rfl
        | cons a b => simp at hc
      subst hkw
      simp [lhmLookup] at hlook
    · cases h
  | cons p rest ih =>
    intro pos kw name v0 hlook hall r h
    rw [List.all_cons, Bool.and_eq_true] at hall
    rcases hall with ⟨hhead, hallr⟩
    cases p with
    | Normal n =>
      have hne : n ≠ name := by
        simp [consultsKey] at hhead
        exact hhead
      cases pos with
      | cons x ps =>
        simp only [psLoop] at h
        cases hrec : psLoop sig ft rest ps kw with
        | ok t => exact ih ps kw name v0 hlook hallr t hrec
        | error e => rw [hrec] at h; cases h
      | nil =>
        rcases hrem : lhmRemove kw n with ⟨f, kw1⟩
        simp only [psLoop, hrem] at h
        cases f with
        | some rv =>
          have hl1 : lhmLookup kw1 name = some v0 := by
            have := lhmRemove_lookup_ne kw n name hne
            rw [hrem] at this
            rw [this, hlook]
          cases hrec : psLoop sig ft rest [] kw1 with
          | ok t => exact ih [] kw1 name v0 hl1 hallr t hrec
          | error e => simp [hrec] at h
        | none => cases h
    | Optional n =>
      have hne : n ≠ name := by
        simp [consultsKey] at hhead
        exact hhead
      cases pos with
      | cons x ps =>
        simp only [psLoop] at h
        cases hrec : psLoop sig ft rest ps kw with
        | ok t => exact ih ps kw name v0 hlook hallr t hrec
        | error e => rw [hrec] at h; cases h
      | nil =>
        rcases hrem : lhmRemove kw n with ⟨f, kw1⟩
        simp only [psLoop, hrem] at h
        cases f with
        | some rv =>
          have hl1 : lhmLookup kw1 name = some v0 := by
            have := lhmRemove_lookup_ne kw n name hne
            rw [hrem] at this
            rw [this, hlook]
          cases hrec : psLoop sig ft rest [] kw1 with
          | ok t => exact ih [] kw1 name v0 hl1 hallr t hrec
          | error e => simp [hrec] at h
        | none =>
          cases hrec : psLoop sig ft rest [] kw with
          | ok t => exact ih [] kw name v0 hlook hallr t hrec
          | error e => rw [hrec] at h; cases h
    | WithDefaultValue n dv =>
      have hne : n ≠ name := by
        simp [consultsKey] at hhead
        exact hhead
      cases pos with
      | cons x ps =>
        simp only [psLoop] at h
        cases hrec : psLoop sig ft rest ps kw with
        | ok t => exact ih ps kw name v0 hlook hallr t hrec
        | error e => rw [hrec] at h; cases h
      | nil =>
        rcases hrem : lhmRemove kw n with ⟨f, kw1⟩
        simp only [psLoop, hrem] at h
        cases f with
        | some rv =>
          have hl1 : lhmLookup kw1 name = some v0 := by
            have := lhmRemove_lookup_ne kw n name hne
            rw [hrem] at this
            rw [this, hlook]
          cases hrec : psLoop sig ft rest [] kw1 with
          | ok t => exact ih [] kw1 name v0 hl1 hallr t hrec
          | error e => simp [hrec] at h
        | none =>
          cases hrec : psLoop sig ft rest [] kw with
          | ok t => exact ih [] kw name v0 hlook hallr t hrec
          | error e => rw [hrec] at h; cases h
    | ArgsArray n =>
      simp only [psLoop] at h
      cases hrec : psLoop sig ft rest [] kw with
      | ok t => exact ih [] kw name v0 hlook hallr t hrec
      | error e => rw [hrec] at h; cases h
    | KWArgsDict n =>
      simp [consultsKey] at hhead

/-- C1: on every successful binding, the bound-argument sequence has one
entry per signature parameter, in declaration order, with matching
variants. -/
theorem binding_length_and_alignment (sig : List FunctionParameter)
    (ft : FunctionType) (positional : List Value)
    (named : List (String × Value)) (args kwargs : Option Value)
    (v : List FunctionArg)
    (h : parse_signature sig ft positional named args kwargs = Except.ok v) :
    v.length = sig.length ∧ aligned sig v = true := by
  unfold parse_signature at h
  cases h1 : expandArgs positional args with
  | error e => rw [h1] at h; cases h
  | ok av =>
    rw [h1] at h
    cases h2 : expandKwargs named kwargs with
    | error e => rw [h2] at h; cases h
    | ok kd =>
      rw [h2] at h
      exact psLoop_ok_aligned sig ft sig av kd v h

/-- Witness for C1 at a concrete signature exercising every variant. -/
theorem binding_length_and_alignment_witness :
    ([FunctionArg.Normal (.int 1), .Optional (some (.int 2)),
      .Normal (.int 7), .ArgsArray [], .KWArgsDict [("z", .int 9)]].length
      = ([FunctionParameter.Normal "a", .Optional "b",
          .WithDefaultValue "c" (.int 7), .ArgsArray "r",
          .KWArgsDict "k"] : List FunctionParameter).length) ∧
    aligned
      [FunctionParameter.Normal "a", .Optional "b",
        .WithDefaultValue "c" (.int 7), .ArgsArray "r", .KWArgsDict "k"]
      [FunctionArg.Normal (.int 1), .Optional (some (.int 2)),
        .Normal (.int 7), .ArgsArray [], .KWArgsDict [("z", .int 9)]] = true :=
  binding_length_and_alignment
    [FunctionParameter.Normal "a", .Optional "b",
      .WithDefaultValue "c" (.int 7), .ArgsArray "r", .KWArgsDict "k"]
    (.Native "f") [.int 1, .int 2] [("z", .int 9)] Option.none Option.none
    [FunctionArg.Normal (.int 1), .Optional (some (.int 2)),
      .Normal (.int 7), .ArgsArray [], .KWArgsDict [("z", .int 9)]] rfl



/-- C2 counterexample: binding `[Required "x"]` against positional=[1] and
named=("x" -> 2) does not produce `Required 1` — it fails with
ExtraParameter, the unconsumed keyword entry remaining. -/
theorem positional_over_keyword_counterexample :
    parse_signature [.Normal "x"] (.Native "f") [.int 1] [("x", .int 2)]
        Option.none Option.none = .error .ExtraParameter ∧
    parse_signature [.Normal "x"] (.Native "f") [.int 1] [("x", .int 2)]
        Option.none Option.none ≠ .ok [.Normal (.int 1)] := by
  refine ⟨rfl, ?_⟩
  intro h
  rw [show parse_signature [.Normal "x"] (.Native "f") [.int 1]
      [("x", .int 2)] Option.none Option.none
      = Except.error .ExtraParameter from rfl] at h
  cases h

/-- C2 amended: a Required/Optional/Defaulted parameter always consumes the
next positional value when one is available and consults the keyword entry
only on positional exhaustion; with a trailing SpreadKeyword slot the same
call binds x to Required(1), never 2 (plain `[Required "x"]` instead fails
ExtraParameter overall, the keyword entry being left unconsumed). -/
theorem positional_preferred_amended :
    (∀ ft, parse_signature [.Normal "x", .KWArgsDict "kw"] ft [.int 1]
        [("x", .int 2)] Option.none Option.none
        = .ok [.Normal (.int 1), .KWArgsDict [("x", .int 2)]]) ∧
    (∀ sig ft name rest x ps kw v,
      psLoop sig ft (.Normal name :: rest) (x :: ps) kw = .ok v →
        v.head? = some (.Normal x)) ∧
    (∀ sig ft name rest x ps kw v,
      psLoop sig ft (.Optional name :: rest) (x :: ps) kw = .ok v →
        v.head? = some (.Optional (some x))) ∧
    (∀ sig ft name dv rest x ps kw v,
      psLoop sig ft (.WithDefaultValue name dv :: rest) (x :: ps) kw = .ok v →
        v.head? = some (.Normal x)) := by
  refine ⟨fun ft => rfl, ?_, ?_, ?_⟩
  · intro sig ft name rest x ps kw v h
    simp only [psLoop] at h
    cases hrec : psLoop sig ft rest ps kw with
    | ok t => rw [hrec] at h; cases h; rfl
    | error e => rw [hrec] at h; cases h
  · intro sig ft name rest x ps kw v h
    simp only [psLoop] at h
    cases hrec : psLoop sig ft rest ps kw with
    | ok t => rw [hrec] at h; cases h; rfl
    | error e => rw [hrec] at h; cases h
  · intro sig ft name dv rest x ps kw v h
    simp only [psLoop] at h
    cases hrec : psLoop sig ft rest ps kw with
    | ok t => rw [hrec] at h; cases h; rfl
    | error e => rw [hrec] at h; cases h

/-- Witness for the amended C2 at concrete inputs. -/
theorem positional_preferred_amended_witness :
    ([FunctionArg.Normal (Value.int 1)] : List FunctionArg).head?
      = some (.Normal (.int 1)) :=
  positional_preferred_amended.2.1 [.Normal "x"] (.Native "f") "x" [] (.int 1)
    [] [] [.Normal (.int 1)] rfl



/-- C3: during keyword expansion a spread-keyword entry overwrites the
same-named explicit entry (last write wins), and binding `[Required "x"]`
against named=("x" -> 1), spreadKeyword=("x" -> 2) yields Required(2). -/
theorem spread_keyword_overwrites :
    (∀ m k v, lhmLookup (lhmInsert m k v) k = some v) ∧
    (∀ ft, parse_signature [.Normal "x"] ft [] [("x", .int 1)] Option.none
        (some (.dict [("x", .int 2)])) = .ok [.Normal (.int 2)]) :=
  ⟨lhmInsert_lookup_self, fun _ => rfl⟩

/-- C4: a Required parameter with no positional value left and no
same-named keyword entry fails NotEnoughParameter carrying the name, the
callee identity and the full signature, and the rendered message strips
leading dollar markers from the name. -/
theorem missing_required_error :
    (∀ sig ft name rest kw, lhmLookup kw name = Option.none →
      psLoop sig ft (.Normal name :: rest) [] kw
        = .error (.NotEnoughParameter name ft sig)) ∧
    (∀ name ft sig,
      (FunctionError.NotEnoughParameter name ft sig).intoRuntime.message
        = "Missing parameter " ++ trimStartDollars name ++ " for call to "
          ++ repr ft sig) ∧
    (∀ ft, parse_signature [.Normal "a", .Normal "b"] ft [.int 1] []
        Option.none Option.none
        = .error (.NotEnoughParameter "b" ft [.Normal "a", .Normal "b"])) ∧
    trimStartDollars "$$helper" = "helper" :=
  ⟨fun sig ft name rest kw h => psLoop_normal_missing sig ft name rest kw h,
   fun _ _ _ => rfl, fun _ => rfl, rfl⟩

/-- Witness for C4: a compiler-synthesized name `$x` at concrete inputs. -/
theorem missing_required_error_witness :
    psLoop [.Normal "$x"] (.Native "f") [.Normal "$x"] [] []
        = .error (.NotEnoughParameter "$x" (.Native "f") [.Normal "$x"]) ∧
    (FunctionError.NotEnoughParameter "$x" (.Native "f")
        [.Normal "$x"]).intoRuntime.message
      = "Missing parameter x for call to <native function f>($x)" :=
  ⟨missing_required_error.1 [.Normal "$x"] (.Native "f") "$x" [] [] rfl,
   missing_required_error.2.1 "$x" (.Native "f") [.Normal "$x"]⟩

/-- C5: after the walk, leftover positional values or a non-empty keyword
mapping fail ExtraParameter, an empty remainder succeeds; in particular
`[Required "a"]` with positional=[1,2] fails ExtraParameter. -/
theorem extra_detection :
    (∀ sig ft pos kw, (pos ≠ [] ∨ kw ≠ []) →
      psLoop sig ft ([] : List FunctionParameter) pos kw
        = .error .ExtraParameter) ∧
    (∀ sig ft, psLoop sig ft ([] : List FunctionParameter) [] [] = .ok []) ∧
    (∀ ft, parse_signature [.Normal "a"] ft [.int 1, .int 2] [] Option.none
        Option.none = .error .ExtraParameter) := by
  refine ⟨?_, fun sig ft => rfl, fun ft => rfl⟩
  intro sig ft pos kw hne
  cases pos <;> cases kw <;> simp_all [psLoop]

/-- Witness for C5 at concrete leftovers. -/
theorem extra_detection_witness :
    psLoop [] (.Native "f") ([] : List FunctionParameter) [.int 3]
        [("k", .int 4)] = .error .ExtraParameter :=
  extra_detection.1 [] (.Native "f") [.int 3] [("k", .int 4)]
    (Or.inl (by simp))



/-- C6: a SpreadPositional parameter captures every remaining positional
value and exhausts the cursor, so a Required parameter after it can only be
fed from keywords; `[SpreadPositional "args"]` with positional=[1,2,3]
yields ArgsArray [1,2,3] and with no positional input ArgsArray []. -/
theorem args_array_captures_all :
    (∀ sig ft nm rest pos kw,
      psLoop sig ft (.ArgsArray nm :: rest) pos kw
        = match psLoop sig ft rest [] kw with
          | .ok t => .ok (.ArgsArray pos :: t)
          | .error e => .error e) ∧
    (∀ sig ft nm name rest pos kw, lhmLookup kw name = Option.none →
      psLoop sig ft (.ArgsArray nm :: .Normal name :: rest) pos kw
        = .error (.NotEnoughParameter name ft sig)) ∧
    (∀ ft, parse_signature [.ArgsArray "args"] ft [.int 1, .int 2, .int 3]
        [] Option.none Option.none = .ok [.ArgsArray [.int 1, .int 2, .int 3]]) ∧
    (∀ ft, parse_signature [.ArgsArray "args"] ft [] [] Option.none
        Option.none = .ok [.ArgsArray []]) := by
  refine ⟨fun sig ft nm rest pos kw => rfl, ?_, fun _ => rfl, fun _ => rfl⟩
  intro sig ft nm name rest pos kw h
  have houter : psLoop sig ft (.ArgsArray nm :: (.Normal name :: rest)) pos kw
      = match psLoop sig ft (.Normal name :: rest) [] kw with
        | .ok t => .ok (.ArgsArray pos :: t)
        | .error e => .error e := rfl
  rw [houter, psLoop_normal_missing sig ft name rest kw h]

/-- Witness for C6 with a Required parameter after the spread slot. -/
theorem args_array_captures_all_witness :
    psLoop [.ArgsArray "a", .Normal "b"] (.Native "f")
        [.ArgsArray "a", .Normal "b"] [.int 1, .int 2] []
      = .error (.NotEnoughParameter "b" (.Native "f")
          [.ArgsArray "a", .Normal "b"]) :=
  args_array_captures_all.2.1 [.ArgsArray "a", .Normal "b"] (.Native "f")
    "a" "b" [] [.int 1, .int 2] [] rfl

/-- C7 counterexample: the repr of a native callable closes the angle
bracket before the parameter list, `<native function f>(x)`, not
`<native function f(x)>` as the claim states. -/
theorem repr_counterexample :
    repr (.Native "f") [.Normal "x"] = "<native function f>(x)" ∧
    repr (.Native "f") [.Normal "x"] ≠ "<native function f(x)>" := by
  refine ⟨rfl, ?_⟩
  intro h
  rw [show repr (.Native "f") [.Normal "x"] = "<native function f>(x)"
      from rfl] at h
  simp at h

/-- C7 amended: a native callable renders as `<native function NAME>(P1,
..., Pn)` and a script-defined one as `<function NAME from MODULE>(P1, ...,
Pn)`, each parameter as its name, `?name` for Optional, `name = default`
for Defaulted, `*name` for SpreadPositional, `**name` for SpreadKeyword. -/
theorem repr_format_amended (name module : String)
    (sig : List FunctionParameter) :
    repr (.Native name) sig
      = "<native function " ++ name ++ ">("
        ++ String.intercalate ", " (sig.map specParamRender) ++ ")" ∧
    repr (.Def name module) sig
      = "<function " ++ name ++ " from " ++ module ++ ">("
        ++ String.intercalate ", " (sig.map specParamRender) ++ ")" := by
  constructor
  · show FunctionType.to_repr (.Native name) ++ "("
        ++ String.intercalate ", " (sig.map paramRepr) ++ ")" = _
    rw [paramRepr_eq_specParamRender]
    show "<native function " ++ name ++ ">" ++ "("
        ++ String.intercalate ", " (sig.map specParamRender) ++ ")" = _
    rw [strAppend_assoc ("<native function " ++ name) ">" "("]
    rw [show (">" : String) ++ "(" = ">(" from rfl]
  · show FunctionType.to_repr (.Def name module) ++ "("
        ++ String.intercalate ", " (sig.map paramRepr) ++ ")" = _
    rw [paramRepr_eq_specParamRender]
    show "<function " ++ name ++ " from " ++ module ++ ">" ++ "("
        ++ String.intercalate ", " (sig.map specParamRender) ++ ")" = _
    rw [strAppend_assoc ("<function " ++ name ++ " from " ++ module) ">" "("]
    rw [show (">" : String) ++ "(" = ">(" from rfl]



/-- C8: a bound method's identity is the wrapped callable's identity
(independent of the receiver), and every call delegates to the wrapped
callable with the stored receiver at index 0 of the positional sequence,
the caller's positional values following unchanged and the named and
spread inputs forwarded unmodified. -/
theorem wrapped_method_identity_call :
    (∀ m1 m2 : WrappedMethod, m1.method = m2.method →
      m1.function_id = m2.function_id) ∧
    (∀ (m : WrappedMethod) (pos : List Value) (named : List (String × Value))
        (args kwargs : Option Value),
      (m.call pos named args kwargs).target = m.method ∧
      (m.call pos named args kwargs).positional = m.self_obj :: pos ∧
      (m.call pos named args kwargs).positional[0]? = some m.self_obj ∧
      (m.call pos named args kwargs).named = named ∧
      (m.call pos named args kwargs).args = args ∧
      (m.call pos named args kwargs).kwargs = kwargs) := by
  constructor
  · intro m1 m2 h
    simp [WrappedMethod.function_id, h]
  · intro m pos named args kwargs
    exact ⟨rfl, rfl, by simp [WrappedMethod.call], rfl, rfl, rfl⟩

/-- Witness for C8: same wrapped callable, different receivers. -/
theorem wrapped_method_identity_call_witness :
    WrappedMethod.function_id ⟨.str "m", .int 1⟩
      = WrappedMethod.function_id ⟨.str "m", .int 2⟩ :=
  wrapped_method_identity_call.1 ⟨.str "m", .int 1⟩ ⟨.str "m", .int 2⟩ rfl

/-- C9: converting a bound argument back to a dynamic value is total:
Normal yields the inner value, Optional the inner value or None, ArgsArray
a sequence value, KWArgsDict a mapping value (string keys are hashable, so
the dictionary construction cannot fail). -/
theorem from_function_arg_total :
    (∀ v, Value.fromFunctionArg (.Normal v) = some v) ∧
    (∀ v, Value.fromFunctionArg (.Optional (some v)) = some v) ∧
    Value.fromFunctionArg (.Optional Option.none) = some Value.none ∧
    (∀ l, Value.fromFunctionArg (.ArgsArray l) = some (Value.list l)) ∧
    (∀ m, Value.fromFunctionArg (.KWArgsDict m) = some (Value.dict m)) ∧
    (∀ a, (Value.fromFunctionArg a).isSome = true) := by
  have hdict : ∀ m, Value.fromFunctionArg (.KWArgsDict m)
      = some (Value.dict m) := by
    intro m
    simp [Value.fromFunctionArg, dictTryFrom, Value.hashable]
  refine ⟨fun v => rfl, fun v => rfl, rfl, fun l => rfl, hdict, ?_⟩
  intro a
  cases a with
  | Normal v => rfl
  | Optional o => cases o <;> rfl
  | ArgsArray l => rfl
  | KWArgsDict m => rw [hdict m]; rfl

/-- C10 counterexample: with the duplicate-name signature
`[Required "x", Required "x"]`, positional=[1] and named=("x" -> 2) supply
both a positional and a same-named keyword value for the first slot, no
SpreadKeyword follows, yet binding succeeds (the second slot consumes the
keyword entry) instead of failing ExtraParameter. -/
theorem duplicate_binding_counterexample :
    parse_signature [.Normal "x", .Normal "x"] (.Native "f") [.int 1]
        [("x", .int 2)] Option.none Option.none
      = .ok [.Normal (.int 1), .Normal (.int 2)] ∧
    parse_signature [.Normal "x", .Normal "x"] (.Native "f") [.int 1]
        [("x", .int 2)] Option.none Option.none
      ≠ .error .ExtraParameter := by
  refine ⟨rfl, ?_⟩
  intro h
  rw [show parse_signature [.Normal "x", .Normal "x"] (.Native "f") [.int 1]
      [("x", .int 2)] Option.none Option.none
      = .ok [.Normal (.int 1), .Normal (.int 2)] from rfl] at h
  cases h

/-- C10 amended: a positionally satisfied Required or Defaulted slot
leaves the same-named keyword entry in place, so when no later parameter
consults that name (same-named slot or SpreadKeyword), binding can never
succeed; with `[Required "x"]` or `[Defaulted "x" 0]`, positional=[1],
named=("x" -> 2) the failure is ExtraParameter. -/
theorem keyword_survives_positional_amended :
    (∀ sig ft name rest x ps kw,
      psLoop sig ft (.Normal name :: rest) (x :: ps) kw
        = match psLoop sig ft rest ps kw with
          | .ok t => .ok (.Normal x :: t)
          | .error e => .error e) ∧
    (∀ sig ft name dv rest x ps kw,
      psLoop sig ft (.WithDefaultValue name dv :: rest) (x :: ps) kw
        = match psLoop sig ft rest ps kw with
          | .ok t => .ok (.Normal x :: t)
          | .error e => .error e) ∧
    (∀ sig ft name rest x ps kw v0 r,
      lhmLookup kw name = some v0 →
      (rest.all fun p => !consultsKey name p) = true →
      psLoop sig ft (.Normal name :: rest) (x :: ps) kw ≠ .ok r) ∧
    (∀ sig ft name dv rest x ps kw v0 r,
      lhmLookup kw name = some v0 →
      (rest.all fun p => !consultsKey name p) = true →
      psLoop sig ft (.WithDefaultValue name dv :: rest) (x :: ps) kw
        ≠ .ok r) ∧
    (∀ ft, parse_signature [.Normal "x"] ft [.int 1] [("x", .int 2)]
        Option.none Option.none = .error .ExtraParameter) ∧
    (∀ ft, parse_signature [.WithDefaultValue "x" (.int 0)] ft [.int 1]
        [("x", .int 2)] Option.none Option.none
        = .error .ExtraParameter) := by
  refine ⟨fun sig ft name rest x ps kw => rfl,
    fun sig ft name dv rest x ps kw => rfl, ?_, ?_, fun _ => rfl,
    fun _ => rfl⟩
  · intro sig ft name rest x ps kw v0 r hlook hall h
    simp only [psLoop] at h
    cases hrec : psLoop sig ft rest ps kw with
    | ok t =>
      exact psLoop_key_blocks sig ft rest ps kw name v0 hlook hall t hrec
    | error e => rw [hrec] at h; cases h
  · intro sig ft name dv rest x ps kw v0 r hlook hall h
    simp only [psLoop] at h
    cases hrec : psLoop sig ft rest ps kw with
    | ok t =>
      exact psLoop_key_blocks sig ft rest ps kw name v0 hlook hall t hrec
    | error e => rw [hrec] at h; cases h

/-- Witness for the amended C10 at concrete inputs, for a Required and a
Defaulted slot. -/
theorem keyword_survives_positional_amended_witness :
    psLoop [.Normal "x"] (.Native "f") [.Normal "x"] [.int 1]
        [("x", .int 2)] ≠ .ok [.Normal (.int 1)] ∧
    psLoop [.WithDefaultValue "x" (.int 0)] (.Native "f")
        [.WithDefaultValue "x" (.int 0)] [.int 1] [("x", .int 2)]
      ≠ .ok [.Normal (.int 1)] :=
  ⟨keyword_survives_positional_amended.2.2.1 [.Normal "x"] (.Native "f")
      "x" [] (.int 1) [] [("x", .int 2)] (.int 2) [.Normal (.int 1)] rfl rfl,
   keyword_survives_positional_amended.2.2.2.1
      [.WithDefaultValue "x" (.int 0)] (.Native "f") "x" (.int 0) []
      (.int 1) [] [("x", .int 2)] (.int 2) [.Normal (.int 1)] rfl rfl⟩


end Starlark
